import Mathlib

/-!
Shallow embedding of the grasshopper-llm-chat repository: the Vuex parameter
store (src/store/index.js), the socket-handling logic component
(src/components/GHInput.vue) and the chat component (src/components/Chat.vue),
together with models of the coordination hub's debounced dispatcher, compute
cycle gate and broadcast fan-out, which the repository's spec describes but
whose server code (flask_hub.py) is not part of the source tree.

Numeric parameter values are modelled as rationals.  JavaScript string
falsiness (`a || b`), `??` defaulting and object-key assignment semantics are
modelled explicitly.
-/

namespace GrasshopperChat

/-- JavaScript string falsiness: `undefined` and the empty string are falsy. -/
def jsFalsyStr : Option String → Bool
  | none => true
  | some s => s == ""

/-- JavaScript `a || b` on possibly-undefined strings: falls through on falsy. -/
def jsOrStr (a b : Option String) : Option String :=
  if jsFalsyStr a then b else a

/-- JavaScript `a || b` where the fallback is a string literal. -/
def jsStrOr (a : Option String) (b : String) : String :=
  match a with
  | none => b
  | some s => if s == "" then b else s

/-- JavaScript string coercion of a possibly-undefined string
(`"RH_IN:" + undefined` is `"RH_IN:undefined"`). -/
def jsStr : Option String → String
  | none => "undefined"
  | some s => s

/-- JavaScript `String.prototype.trim`: strip leading and trailing
whitespace. -/
def jsTrim (s : String) : String :=
  String.mk (((s.data.dropWhile Char.isWhitespace).reverse.dropWhile
    Char.isWhitespace).reverse)

/-- Stand-in for JavaScript `Number.prototype.toString`: exact on integers,
which is all the repository and the claims exercise; an injective rendering is
used for non-integral rationals. -/
def numToString (q : ℚ) : String :=
  if q.den = 1 then toString q.num else toString q.num ++ "/" ++ toString q.den

/-- Parameter record as received over the wire (fields may be absent,
mirroring optional JSON fields). -/
structure RawInput where
  name : Option String := none
  label : Option String := none
  value : Option ℚ := none
  default : Option ℚ := none
  min : Option ℚ := none
  max : Option ℚ := none
  description : Option String := none
deriving Repr, DecidableEq

/-- Parameter as stored in `state.parameters.inputs` after `setParameters`:
the incoming record spread together with `id`, `name` and `label`. -/
structure Input where
  id : Nat
  name : Option String
  label : Option String
  value : Option ℚ
  default : Option ℚ := none
  min : Option ℚ := none
  max : Option ℚ := none
  description : Option String := none
deriving Repr, DecidableEq

/-- One entry of `state.parameters.formatted` as built by
`formatApiParameters`: `ParamName`, the fixed inner-tree key, the fixed
`System.Double` type tag, and the stringified value. -/
structure FormattedParam where
  ParamName : String
  treeKey : String
  dataType : String
  data : String
deriving Repr, DecidableEq

/-- Chat message record as pushed by the store's message mutations. -/
structure Message where
  text : String
  type : String
  sender : String
deriving Repr, DecidableEq

/-- The Vuex store state (src/store/index.js), restricted to the fields the
mutations under verification touch.  `parameters.inputs` and
`parameters.formatted` are flattened into `inputs` and `formatted`. -/
structure StoreState where
  receivedMeshData : Option String := none
  inputs : List Input := []
  formatted : List FormattedParam := []
  sidebarOpen : Bool := true
  allMessages : List Message := []
  chatMessages : List Message := []
  responseMessages : List Message := []
  prompt : String := ""
  isThinking : Bool := false
  currentTab : String := "Parameters"
  theme : String := "dark"
  geometryLoading : Bool := false
  username : String := ""
  websocketUrl : String := "http://localhost:5001"
deriving Repr, DecidableEq

/-- Format one stored input for the Rhino API, as `formatApiParameters` does:
`ParamName: "RH_IN:" + input.name`, data `(input.value ?? 0).toString()`. -/
def formatEntry (input : Input) : FormattedParam :=
  { ParamName := "RH_IN:" ++ jsStr input.name
    treeKey := "\x7b0; \x7d"
    dataType := "System.Double"
    data := numToString (input.value.getD 0) }

/-- Mutation `formatApiParameters`: recompute `state.parameters.formatted`
from `state.parameters.inputs`. -/
def formatApiParameters (st : StoreState) : StoreState :=
  { st with formatted := st.inputs.map formatEntry }

/-- The mapping done by `setParameters`: each incoming record is spread, given
`id = index`, `name = input.name || input.label`, and
`label = input.label || input.name`. -/
def processInputs : Nat → List RawInput → List Input
  | _, [] => []
  | i, input :: rest =>
    { id := i
      name := jsOrStr input.name input.label
      label := jsOrStr input.label input.name
      value := input.value
      default := input.default
      min := input.min
      max := input.max
      description := input.description } :: processInputs (i + 1) rest

/-- Mutation `setParameters`: store the processed inputs, then commit
`formatApiParameters`. -/
def setParameters (st : StoreState) (inputs : List RawInput) : StoreState :=
  formatApiParameters { st with inputs := processInputs 0 inputs }

/-- Splice-replacement of the input at index `ix` with a copy whose `value`
is the new value (`inputs.splice(index, 1, {...inputs[index], value})`). -/
def replaceValueAt (inputs : List Input) (ix : Nat) (value : ℚ) : List Input :=
  match inputs[ix]? with
  | none => inputs
  | some old => inputs.set ix { old with value := some value }

/-- Mutation `updateParameterValue`: find the first input with the given `id`;
if found, replace its `value` and recompute `formatted`; otherwise log and
leave the state unchanged. -/
def updateParameterValue (st : StoreState) (id : Nat) (value : ℚ) : StoreState :=
  match st.inputs.findIdx? (fun input => input.id == id) with
  | none => st
  | some ix =>
    let inputs := replaceValueAt st.inputs ix value
    { st with inputs := inputs, formatted := inputs.map formatEntry }

/-- Match predicate of `updateParameterByName`:
`input.name === name || input.label === name` (the delta's name may itself be
absent, and JavaScript `undefined === undefined` holds). -/
def matchesName (name : Option String) (input : Input) : Bool :=
  input.name == name || input.label == name

/-- Mutation `updateParameterByName`: find the first input whose `name` or
`label` equals the given name; if found, replace its `value` and recompute
`formatted`; otherwise log and leave the state unchanged. -/
def updateParameterByName (st : StoreState) (name : Option String) (value : ℚ) :
    StoreState :=
  match st.inputs.findIdx? (matchesName name) with
  | none => st
  | some ix =>
    let inputs := replaceValueAt st.inputs ix value
    { st with inputs := inputs, formatted := inputs.map formatEntry }

/-- Mutation `addUserMessage` (used for messages broadcast from the server):
sender is `username || 'User'`. -/
def addUserMessage (st : StoreState) (text : String) (username : Option String) :
    StoreState :=
  let msg : Message := { text := text, type := "user", sender := jsStrOr username "User" }
  { st with chatMessages := st.chatMessages ++ [msg]
            allMessages := st.allMessages ++ [msg] }

/-- Mutation `addResponseMessage`: an assistant-side message pushed to
`responseMessages` and `allMessages`. -/
def addResponseMessage (st : StoreState) (text : String) : StoreState :=
  let msg : Message := { text := text, type := "response", sender := "Assistant" }
  { st with responseMessages := st.responseMessages ++ [msg]
            allMessages := st.allMessages ++ [msg] }

/-- Mutation `setThinking`. -/
def setThinking (st : StoreState) (value : Bool) : StoreState :=
  { st with isThinking := value }

/-- Mutation `setGeometryLoading`. -/
def setGeometryLoading (st : StoreState) (value : Bool) : StoreState :=
  { st with geometryLoading := value }

/-- Mutation `setPrompt`. -/
def setPrompt (st : StoreState) (prompt : String) : StoreState :=
  { st with prompt := prompt }

/-- Mutation `setSidebarOpen`. -/
def setSidebarOpen (st : StoreState) (value : Bool) : StoreState :=
  { st with sidebarOpen := value }

/-- Mutation `setReceivedMeshData`. -/
def setReceivedMeshData (st : StoreState) (data : Option String) : StoreState :=
  { st with receivedMeshData := data }

/-- One `params_update` payload: a JavaScript object keyed by parameter name,
built by `currentParams[p.name] = p.value`. -/
abbrev ParamsObject := List (String × Option ℚ)

/-- JavaScript object-key assignment: overwrite in place when the key already
exists, append a new key otherwise. -/
def jsObjSet (obj : ParamsObject) (k : String) (v : Option ℚ) : ParamsObject :=
  if obj.any (fun e => e.1 == k) then
    obj.map (fun e => if e.1 == k then (k, v) else e)
  else obj ++ [(k, v)]

/-- The object assembled by `sendParamsToServer` at timer expiry:
`parameters.value.inputs.forEach(p => currentParams[p.name] = p.value)`. -/
def paramsPayload (st : StoreState) : ParamsObject :=
  st.inputs.foldl (fun acc p => jsObjSet acc (jsStr p.name) p.value) []

/-- Snapshot entry handed to the LLM by the prompt watcher. -/
structure LlmParam where
  name : Option String
  label : Option String
  value : Option ℚ
  min : Option ℚ
  max : Option ℚ
  description : Option String
deriving Repr, DecidableEq

/-- A `chat_request` emission. -/
structure ChatRequest where
  prompt : String
  params : List LlmParam
  username : String
deriving Repr, DecidableEq

/-- A `chat_message` socket event as delivered to a client. -/
structure ChatMessageEvent where
  type : String
  content : String
  username : Option String := none
  from_self : Bool := false
deriving Repr, DecidableEq

/-- State of the socket logic component (GHInput.vue): the store together
with the component's local refs (`isProcessing`, `isSyncingFromServer`), a
marker for an armed `sendParamsToServer` debounce timer, ghost logs of the
socket emissions, and a ghost count of chat requests dispatched but not yet
answered. -/
structure ClientState where
  store : StoreState := {}
  isProcessing : Bool := false
  isSyncingFromServer : Bool := false
  pendingDispatch : Bool := false
  sentParams : List ParamsObject := []
  sentChats : List ChatRequest := []
  outstandingChats : Nat := 0
deriving Repr, DecidableEq

/-- Socket `error` handler: surface the error as a chat-visible response
message and reset `isThinking`, `geometryLoading` and `isProcessing`. -/
def onError (c : ClientState) (message : String) : ClientState :=
  { c with
    store := setGeometryLoading (setThinking
      (addResponseMessage c.store ("Error: " ++ message)) false) false
    isProcessing := false
    outstandingChats := c.outstandingChats - 1 }

/-- Socket `geometry_result` handler: store the mesh when present, clear the
loading flag and the processing flag. -/
def onGeometryResult (c : ClientState) (geometry : Option String) : ClientState :=
  let st :=
    match geometry with
    | some g => setReceivedMeshData c.store (some g)
    | none => c.store
  { c with store := setGeometryLoading st false
           isProcessing := false
           outstandingChats := c.outstandingChats - 1 }

/-- Socket `chat_processing` handler. -/
def onChatProcessing (c : ClientState) : ClientState :=
  { c with store := setThinking c.store true }

/-- Socket `chat_message` handler: on a user message, append exactly one chat
message whose sender is `data.username || (data.from_self ? 'You' : 'User')`. -/
def onChatMessage (c : ClientState) (e : ChatMessageEvent) : ClientState :=
  if e.type == "user" then
    let senderName := jsStrOr e.username (if e.from_self then "You" else "User")
    { c with store := addUserMessage c.store e.content (some senderName) }
  else c

/-- Socket `chat_llm_response` handler: when the reply carries parameter
changes, post a summary response message and apply each change through
`updateParameterByName` with `isSyncingFromServer` raised (the formatted
watcher flushes while the flag is up, so no `params_update` is emitted, and
the 100 ms timeout then clears the flag again); always clear `isThinking`. -/
def onChatLlmResponse (c : ClientState) (params : List (String × ℚ)) : ClientState :=
  let c1 :=
    if params.length > 0 then
      let changes := String.intercalate ", "
        (params.map (fun p => p.1 ++ ": " ++ numToString p.2))
      let st1 := addResponseMessage c.store ("Setting: " ++ changes)
      let st2 := params.foldl (fun s p => updateParameterByName s (some p.1) p.2) st1
      { c with store := st2, isSyncingFromServer := false }
    else c
  { c1 with store := setThinking c1.store false }

/-- Body of the prompt watcher in GHInput.vue: guard
`newPrompt && newPrompt.trim() && !isProcessing`, then mark processing and
thinking, show geometry loading, and emit `chat_request` with the prompt, the
parameter snapshot and the username. -/
def promptWatcher (c : ClientState) (newPrompt : String) : ClientState :=
  if newPrompt ≠ "" ∧ jsTrim newPrompt ≠ "" ∧ c.isProcessing = false then
    let paramsForLLM := c.store.inputs.map (fun p =>
      ({ name := p.name, label := p.label, value := p.value,
         min := p.min, max := p.max, description := p.description } : LlmParam))
    { c with
      isProcessing := true
      store := setGeometryLoading (setThinking c.store true) true
      sentChats := c.sentChats ++
        [{ prompt := newPrompt, params := paramsForLLM, username := c.store.username }]
      outstandingChats := c.outstandingChats + 1 }
  else c

/-- Chat.vue `handleNewMessage` followed by the prompt watcher's flush: the
outgoing message is not appended locally (the hub broadcasts it back with
`from_self: true`); the prompt is stored and thinking switched on, and the
watcher body runs only when the prompt value actually changed. -/
def handleNewMessage (c : ClientState) (text : String) : ClientState :=
  if jsTrim text == "" then c
  else
    let oldPrompt := c.store.prompt
    let c1 := { c with store := setThinking (setPrompt c.store text) true }
    if text ≠ oldPrompt then promptWatcher c1 text else c1

/-- Events driving the client's chat round trip. -/
inductive ChatEvent where
  | submit (text : String)
  | geometryResult (geometry : Option String)
  | errorEvt (message : String)
  | llmResponse (params : List (String × ℚ))
  | processing
deriving Repr, DecidableEq

/-- One client step per socket or UI event. -/
def chatStep (c : ClientState) : ChatEvent → ClientState
  | .submit text => handleNewMessage c text
  | .geometryResult g => onGeometryResult c g
  | .errorEvt m => onError c m
  | .llmResponse ps => onChatLlmResponse c ps
  | .processing => onChatProcessing c

/-- Run the client from its initial state over a list of events. -/
def chatRun (events : List ChatEvent) : ClientState :=
  events.foldl chatStep {}

/-- One step of the sync loop in `handleParamsFromServer`: look the server
parameter up by name in the current inputs and update through
`updateParameterByName` only when the local value differs from
`serverParam.value ?? 0`; the Bool records whether the store was mutated. -/
def syncStep (st : StoreState) (sp : RawInput) : StoreState × Bool :=
  let name := jsOrStr sp.name sp.label
  let serverValue := sp.value.getD 0
  match st.inputs.find? (fun p => p.name == name) with
  | some lp =>
    if lp.value == some serverValue then (st, false)
    else (updateParameterByName st name serverValue, true)
  | none => (st, false)

/-- The record built in the initial-load branch of `handleParamsFromServer`:
`{...input, name: name || label, label: label || name,
value: value ?? default ?? 0}`. -/
def processServerInput (input : RawInput) : RawInput :=
  { input with
    name := jsOrStr input.name input.label
    label := jsOrStr input.label input.name
    value := some (input.value.getD (input.default.getD 0)) }

/-- Client `handleParamsFromServer`: empty payloads are ignored; the initial
branch (explicit initial event, or an empty local parameter set) replaces the
whole set and opens the sidebar, without touching `isSyncingFromServer`; the
sync branch raises `isSyncingFromServer` and applies only differing values.
The Bool records whether the store was mutated (what the deep watcher
reacts to). -/
def handleParamsFromServer (c : ClientState) (serverParams : List RawInput)
    (isInitial : Bool) : ClientState × Bool :=
  if serverParams.length == 0 then (c, false)
  else if isInitial || c.store.inputs.length == 0 then
    let processed := serverParams.map processServerInput
    ({ c with store := setSidebarOpen (setParameters c.store processed) true }, true)
  else
    let folded := serverParams.foldl
      (fun (acc : StoreState × Bool) sp =>
        let out := syncStep acc.1 sp
        (out.1, acc.2 || out.2))
      (c.store, false)
    ({ c with store := folded.1, isSyncingFromServer := true }, folded.2)

/-- The formatted-parameters watcher flush: if the handler mutated the store
while neither suppression flag is up and the formatted list is non-empty,
`sendParamsToServer` runs, i.e. the 50 ms debounce timer is armed. -/
def watcherFlush (c : ClientState) (mutated : Bool) : ClientState :=
  if mutated && !c.isSyncingFromServer && !c.isProcessing
      && c.store.formatted.length != 0 then
    { c with pendingDispatch := true }
  else c

/-- Expiry of an armed debounce timer: mark geometry as loading and emit the
`params_update` payload read from the current store. -/
def debounceFire (c : ClientState) : ClientState :=
  if c.pendingDispatch then
    { c with pendingDispatch := false
             store := setGeometryLoading c.store true
             sentParams := c.sentParams ++ [paramsPayload c.store] }
  else c

/-- Processing of one `params_sync` socket event end to end, in real-time
order: the synchronous handler (which runs only for source `"grasshopper"`),
the microtask watcher flush, the 50 ms debounce expiry, then the 100 ms
`isSyncingFromServer` reset. -/
def processParamsSync (c : ClientState) (source : String)
    (serverParams : List RawInput) : ClientState :=
  if source == "grasshopper" then
    let out := handleParamsFromServer c serverParams false
    let c2 := watcherFlush out.1 out.2
    let c3 := debounceFire c2
    { c3 with isSyncingFromServer := false }
  else c

/-- One timed slider edit: at `time` (in ms) the slider bound to parameter
`id` is set to `value`. -/
structure TimedDelta where
  time : Nat
  id : Nat
  value : ℚ
deriving Repr, DecidableEq

/-- Debounce interval of GHInput.vue (`DEBOUNCE_MS = 50`). -/
def DEBOUNCE_MS : Nat := 50

/-- Debouncer state for an editing session: the store, the armed timer's
absolute deadline, and the `params_update` payloads sent so far. -/
structure DebounceState where
  store : StoreState
  deadline : Option Nat := none
  sent : List ParamsObject := []
deriving Repr, DecidableEq

/-- Fire the armed debounce timer if its deadline has passed by time `t`. -/
def fireIfDue (ds : DebounceState) (t : Nat) : DebounceState :=
  match ds.deadline with
  | some dl =>
    if dl ≤ t then
      { ds with deadline := none
                store := setGeometryLoading ds.store true
                sent := ds.sent ++ [paramsPayload ds.store] }
    else ds
  | none => ds

/-- Processing of one timed slider edit during a client editing session (both
suppression flags down): fire any due timer first, then apply the edit
through `handleParameterUpdate`/`updateParameterValue`; when the edit hit an
existing parameter the deep watcher fires and `sendParamsToServer` clears and
restarts the debounce timer. -/
def applyTimedDelta (ds : DebounceState) (d : TimedDelta) : DebounceState :=
  let ds1 := fireIfDue ds d.time
  let mutated := ds1.store.inputs.any (fun input => input.id == d.id)
  let st := updateParameterValue ds1.store d.id d.value
  if mutated then { ds1 with store := st, deadline := some (d.time + DEBOUNCE_MS) }
  else { ds1 with store := st }

/-- Let the quiet period elapse after the last edit: an armed timer fires. -/
def flushDebounce (ds : DebounceState) : DebounceState :=
  match ds.deadline with
  | some _ =>
    { ds with deadline := none
              store := setGeometryLoading ds.store true
              sent := ds.sent ++ [paramsPayload ds.store] }
  | none => ds

/-- A whole editing session: start with store `st`, apply the timed edits in
chronological order, then let the quiet period elapse. -/
def debounceRun (st : StoreState) (deltas : List TimedDelta) : DebounceState :=
  flushDebounce (deltas.foldl applyTimedDelta { store := st })

/-- Parameter snapshot accumulated by the hub's dispatcher. -/
abbrev Snapshot := List (String × ℚ)

/-- Key-wise assignment into a snapshot: overwrite an existing key in place,
append a new one. -/
def snapSet (snap : Snapshot) (k : String) (v : ℚ) : Snapshot :=
  if snap.any (fun e => e.1 == k) then
    snap.map (fun e => if e.1 == k then (k, v) else e)
  else snap ++ [(k, v)]

/-- Key-wise last-write-wins merge of a delta into a snapshot. -/
def mergeDelta (snap : Snapshot) (delta : List (String × ℚ)) : Snapshot :=
  delta.foldl (fun acc kv => snapSet acc kv.1 kv.2) snap

/-- Modelled from the spec: the events reaching the hub's Debounced
Dispatcher and Compute Cycle Gate.  The hub server (flask_hub.py) is not part
of the source tree; spec sections 4.3 and 4.4 and the ComputeCycle data-model
invariant describe it.  CAD-originated deltas bypass the dispatcher
(parameter-store update and fan-out only); client- and LLM-originated deltas
enter the debounce accumulation. -/
inductive HubEvent where
  | clientDelta (delta : List (String × ℚ))
  | llmDelta (delta : List (String × ℚ))
  | cadDelta (delta : List (String × ℚ))
  | debounceExpiry
  | cycleComplete
  | cycleError
deriving Repr, DecidableEq

/-- Modelled from the spec: dispatcher-and-gate state.  `accum` is the
Pending debounce accumulation, `inFlight` the dispatched snapshots awaiting a
CAD result (kept as a list so that the one-slot property is a provable
invariant rather than a typing artifact), `retained` the snapshot captured
while a cycle was in flight, and `dispatched` a ghost log of everything sent
to the CAD engine. -/
structure HubState where
  accum : Option Snapshot := none
  inFlight : List Snapshot := []
  retained : List Snapshot := []
  dispatched : List Snapshot := []
deriving Repr, DecidableEq

/-- Modelled from the spec: completion of the in-flight cycle (a geometry
result or an error).  The gate returns to Idle, and a retained snapshot, if
any, is dispatched the instant the cycle completes, superseding nothing else
(only the most recent pending snapshot was kept). -/
def hubComplete (s : HubState) : HubState :=
  match s.inFlight with
  | [] => s
  | _ :: rest =>
    match s.retained with
    | [] => { s with inFlight := rest }
    | r :: _ =>
      { s with inFlight := rest ++ [r], retained := []
               dispatched := s.dispatched ++ [r] }

/-- Modelled from the spec: one hub transition.  A client or LLM delta merges
into the Pending accumulation and restarts the quiet-period timer; timer
expiry dispatches immediately when the gate is Idle and otherwise retains the
snapshot, superseding any earlier retained one; completion and error both end
the in-flight cycle. -/
def hubStep (s : HubState) : HubEvent → HubState
  | .clientDelta d => { s with accum := some (mergeDelta (s.accum.getD []) d) }
  | .llmDelta d => { s with accum := some (mergeDelta (s.accum.getD []) d) }
  | .cadDelta _ => s
  | .debounceExpiry =>
    match s.accum with
    | none => s
    | some snap =>
      if s.inFlight.isEmpty then
        { s with accum := none, inFlight := [snap]
                 dispatched := s.dispatched ++ [snap] }
      else { s with accum := none, retained := [snap] }
  | .cycleComplete => hubComplete s
  | .cycleError => hubComplete s

/-- Run the hub from its initial state over a list of events. -/
def hubRun (events : List HubEvent) : HubState :=
  events.foldl hubStep {}

/-- Modelled from the spec: the hub's broadcast fan-out for chat messages.
The hub server (flask_hub.py) is not part of the source tree; spec section
4.2 and the event catalogue describe it.  A user chat message is delivered to
every connected session, the originator included, and each delivery carries
the origin tag in the form of a per-receiver `from_self` flag. -/
def broadcastChatMessage (sessions : List Nat) (origin : Nat) (content : String)
    (username : Option String) : List (Nat × ChatMessageEvent) :=
  sessions.map (fun sid =>
    (sid, { type := "user", content := content, username := username,
            from_self := sid == origin }))

/-- Example wire payload: one `width` parameter with bounds 0–50. -/
def c10Inputs : List RawInput :=
  [{ name := some "width", value := some 10, min := some 0, max := some 50 }]

/-- Example store holding a single `width` parameter bounded by 0–50 with
current value 10. -/
def widthStore : StoreState :=
  setParameters {} [{ name := some "width", label := some "width",
                      value := some 10, min := some 0, max := some 50,
                      description := some "overall width" }]

/-- Example store holding `width` and `height` parameters. -/
def whStore : StoreState :=
  setParameters {}
    [{ name := some "width", value := some 10, min := some 0, max := some 50 },
     { name := some "height", value := some 5, min := some 0, max := some 50 }]

section ListLemmas

variable {α β : Type}

/-- A successful `findIdx?` returns an index inside the list. -/
theorem findIdx?_lt_length {p : α → Bool} {l : List α} : ∀ {ix : Nat},
    l.findIdx? p = some ix → ix < l.length := by
  induction l with
  | nil => intro ix h; simp [List.findIdx?] at h
  | cons a t ih =>
    intro ix h
    rw [List.findIdx?_cons] at h
    cases hp : p a with
    | true =>
      rw [hp] at h
      simp at h
      simp [← h]
    | false =>
      rw [hp] at h
      simp at h
      obtain ⟨j, hj, hj2⟩ := h
      have := ih hj
      simp only [List.length_cons]
      omega

/-- A successful `findIdx?` finds an element satisfying the predicate. -/
theorem findIdx?_found {p : α → Bool} {l : List α} : ∀ {ix : Nat},
    l.findIdx? p = some ix → ∃ a, l[ix]? = some a ∧ p a = true := by
  induction l with
  | nil => intro ix h; simp [List.findIdx?] at h
  | cons a t ih =>
    intro ix h
    rw [List.findIdx?_cons] at h
    cases hp : p a with
    | true =>
      rw [hp] at h
      simp at h
      exact ⟨a, by simp [← h], hp⟩
    | false =>
      rw [hp] at h
      simp at h
      obtain ⟨j, hj, hj2⟩ := h
      obtain ⟨b, hb, hpb⟩ := ih hj
      subst hj2
      exact ⟨b, by simpa using hb, hpb⟩

/-- `findIdx?` depends only on the predicate's values along the list. -/
theorem findIdx?_congr {p : α → Bool} : ∀ {l₁ l₂ : List α},
    l₁.length = l₂.length →
    (∀ j : Nat, l₁[j]?.map p = l₂[j]?.map p) →
    ∀ (start : Nat), List.findIdx? p l₁ start = List.findIdx? p l₂ start := by
  intro l₁
  induction l₁ with
  | nil =>
    intro l₂ hlen hpt start
    cases l₂ with
    | nil => rfl
    | cons b t₂ => simp at hlen
  | cons a t₁ ih =>
    intro l₂ hlen hpt start
    cases l₂ with
    | nil => simp at hlen
    | cons b t₂ =>
      have h0 := hpt 0
      simp at h0
      rw [List.findIdx?_cons, List.findIdx?_cons, h0]
      cases hpb : p b with
      | true => simp [hpb]
      | false =>
        simp only [hpb, Bool.false_eq_true, if_false]
        exact ih (by simpa using hlen) (fun j => by simpa using hpt (j + 1)) (start + 1)

/-- Setting an index back to the element already there is the identity. -/
theorem set_getElem?_self {l : List α} {i : Nat} {a : α} (h : l[i]? = some a) :
    l.set i a = l := by
  have hi : i < l.length := by
    by_contra hc
    rw [List.getElem?_eq_none (by omega)] at h
    exact Option.noConfusion h
  apply List.ext_getElem?
  intro j
  by_cases hij : i = j
  · subst hij
    rw [List.getElem?_set_self hi, h]
  · rw [List.getElem?_set_ne hij]

end ListLemmas

/-- Length of the processed input list. -/
theorem processInputs_length (i : Nat) (inputs : List RawInput) :
    (processInputs i inputs).length = inputs.length := by
  induction inputs generalizing i with
  | nil => rfl
  | cons a t ih => simp [processInputs, ih]

/-- Pointwise description of the processed input list. -/
theorem processInputs_getElem? (i : Nat) (inputs : List RawInput) (j : Nat) :
    (processInputs i inputs)[j]? = inputs[j]?.map (fun input =>
      { id := i + j
        name := jsOrStr input.name input.label
        label := jsOrStr input.label input.name
        value := input.value
        default := input.default
        min := input.min
        max := input.max
        description := input.description }) := by
  induction inputs generalizing i j with
  | nil => simp [processInputs]
  | cons a t ih =>
    cases j with
    | zero => simp [processInputs]
    | succ j =>
      have h1 : i + (j + 1) = (i + 1) + j := by omega
      simp only [processInputs, List.getElem?_cons_succ, h1]
      exact ih (i + 1) j

/-- `replaceValueAt` preserves every projection that ignores `value`. -/
theorem replaceValueAt_map_proj {β : Type} (f : Input → β)
    (hf : ∀ (old : Input) (v : ℚ), f { old with value := some v } = f old)
    (inputs : List Input) (ix : Nat) (v : ℚ) :
    (replaceValueAt inputs ix v).map f = inputs.map f := by
  unfold replaceValueAt
  cases hg : inputs[ix]? with
  | none => rfl
  | some old =>
    rw [List.map_set, hf]
    apply set_getElem?_self
    rw [List.getElem?_map, hg]
    rfl

/-- `replaceValueAt` preserves the list length. -/
theorem replaceValueAt_length (inputs : List Input) (ix : Nat) (v : ℚ) :
    (replaceValueAt inputs ix v).length = inputs.length := by
  unfold replaceValueAt
  cases inputs[ix]? with
  | none => rfl
  | some old => exact List.length_set ..

/-- `updateParameterByName` on a found index, unfolded. -/
theorem updateParameterByName_found {st : StoreState} {name : Option String}
    {ix : Nat} (v : ℚ) (h : st.inputs.findIdx? (matchesName name) = some ix) :
    updateParameterByName st name v =
      { st with inputs := replaceValueAt st.inputs ix v
                formatted := (replaceValueAt st.inputs ix v).map formatEntry } := by
  unfold updateParameterByName
  rw [h]

/-- `updateParameterByName` without a match is the identity. -/
theorem updateParameterByName_none {st : StoreState} {name : Option String}
    (v : ℚ) (h : st.inputs.findIdx? (matchesName name) = none) :
    updateParameterByName st name v = st := by
  unfold updateParameterByName
  rw [h]

/-- `updateParameterValue` on a found index, unfolded. -/
theorem updateParameterValue_found {st : StoreState} {id : Nat}
    {ix : Nat} (v : ℚ)
    (h : st.inputs.findIdx? (fun input => input.id == id) = some ix) :
    updateParameterValue st id v =
      { st with inputs := replaceValueAt st.inputs ix v
                formatted := (replaceValueAt st.inputs ix v).map formatEntry } := by
  unfold updateParameterValue
  rw [h]

/-- `updateParameterValue` without a match is the identity. -/
theorem updateParameterValue_none {st : StoreState} {id : Nat}
    (v : ℚ) (h : st.inputs.findIdx? (fun input => input.id == id) = none) :
    updateParameterValue st id v = st := by
  unfold updateParameterValue
  rw [h]

/-- `updateParameterByName` never changes the name or label of any stored
parameter. -/
theorem updateParameterByName_nameLabel (s : StoreState) (m : Option String)
    (v : ℚ) :
    (updateParameterByName s m v).inputs.map (fun p => (p.name, p.label))
      = s.inputs.map (fun p => (p.name, p.label)) := by
  cases h : s.inputs.findIdx? (matchesName m) with
  | none => rw [updateParameterByName_none v h]
  | some ix =>
    rw [updateParameterByName_found v h]
    exact replaceValueAt_map_proj (fun p => (p.name, p.label)) (fun _ _ => rfl)
      s.inputs ix v

/-- `updateParameterValue` never changes the id of any stored parameter. -/
theorem updateParameterValue_ids (s : StoreState) (id : Nat) (v : ℚ) :
    (updateParameterValue s id v).inputs.map (fun p => p.id)
      = s.inputs.map (fun p => p.id) := by
  cases h : s.inputs.findIdx? (fun input => input.id == id) with
  | none => rw [updateParameterValue_none v h]
  | some ix =>
    rw [updateParameterValue_found v h]
    exact replaceValueAt_map_proj (fun p => p.id) (fun _ _ => rfl) s.inputs ix v

/-- `List.any` after a map is `any` of the composition. -/
theorem any_map_comp {α β : Type} (f : α → β) (p : β → Bool) (l : List α) :
    (l.map f).any p = l.any (fun a => p (f a)) := by
  induction l with
  | nil => rfl
  | cons a t ih => simp [ih]

/-- `any (matchesName m)` is determined by the name/label columns. -/
theorem any_matchesName_of_map_eq {s t : List Input} (m : Option String)
    (h : s.map (fun p => (p.name, p.label)) = t.map (fun p => (p.name, p.label))) :
    s.any (matchesName m) = t.any (matchesName m) := by
  have key : ∀ (l : List Input), l.any (matchesName m)
      = (l.map (fun p => (p.name, p.label))).any (fun q => q.1 == m || q.2 == m) := by
    intro l
    rw [any_map_comp]
    rfl
  rw [key, key, h]

/-- Folding `jsObjSet` over inputs whose keys are fresh and pairwise distinct
just appends the key-value pairs. -/
theorem jsObj_foldl_fresh : ∀ (inputs : List Input) (acc : ParamsObject),
    (∀ p ∈ inputs, ∀ e ∈ acc, e.1 ≠ jsStr p.name) →
    (inputs.map (fun p => jsStr p.name)).Nodup →
    inputs.foldl (fun a p => jsObjSet a (jsStr p.name) p.value) acc
      = acc ++ inputs.map (fun p => (jsStr p.name, p.value)) := by
  intro inputs
  induction inputs with
  | nil => intro acc _ _; simp
  | cons q t ih =>
    intro acc hfresh hnd
    simp only [List.foldl_cons]
    have hnot : acc.any (fun e => e.1 == jsStr q.name) = false := by
      rw [List.any_eq_false]
      intro e he
      simpa using hfresh q (by simp) e he
    have hstep : jsObjSet acc (jsStr q.name) q.value
        = acc ++ [(jsStr q.name, q.value)] := by
      rw [jsObjSet, hnot]
      simp
    have hpair : (∀ x ∈ t, ¬ jsStr x.name = jsStr q.name)
        ∧ (t.map (fun p => jsStr p.name)).Nodup := by
      simpa using hnd
    rw [hstep, ih (acc ++ [(jsStr q.name, q.value)])]
    · simp
    · intro p hp e he
      rcases List.mem_append.mp he with hin | hnew
      · exact hfresh p (List.mem_cons_of_mem _ hp) e hin
      · have he2 : e = (jsStr q.name, q.value) := by simpa using hnew
        subst he2
        show jsStr q.name ≠ jsStr p.name
        intro hcontra
        exact hpair.1 p hp hcontra.symm
    · exact hpair.2

/-- With pairwise-distinct parameter names the `params_update` payload is
exactly the list of (name, value) pairs of the stored inputs. -/
theorem paramsPayload_of_nodup (st : StoreState)
    (hnd : (st.inputs.map (fun p => jsStr p.name)).Nodup) :
    paramsPayload st = st.inputs.map (fun p => (jsStr p.name, p.value)) := by
  rw [paramsPayload, jsObj_foldl_fresh st.inputs [] (by simp) hnd]
  simp

/-- C10: after every `setParameters(inputs)` call, the stored parameter at
position `i` has `id = i`, `name` equal to the incoming name or, when that is
absent (JavaScript-falsy), the incoming label, and `label` equal to the
incoming label or, when absent, the incoming name; the incoming value is kept
by the spread; the derived formatted array has the same length as `inputs`
and its entry `i` has `ParamName` equal to `"RH_IN:"` concatenated with the
stored name and `data` equal to the string form of the stored value, `0` when
the value is absent. -/
theorem C10_setParameters_shape (st : StoreState) (inputs : List RawInput)
    (i : Nat) (hi : i < inputs.length) :
    (setParameters st inputs).inputs.length = inputs.length ∧
    (setParameters st inputs).formatted.length = inputs.length ∧
    ∃ raw stored fmt,
      inputs[i]? = some raw ∧
      (setParameters st inputs).inputs[i]? = some stored ∧
      (setParameters st inputs).formatted[i]? = some fmt ∧
      stored.id = i ∧
      (jsFalsyStr raw.name = false → stored.name = raw.name) ∧
      (jsFalsyStr raw.name = true → stored.name = raw.label) ∧
      (jsFalsyStr raw.label = false → stored.label = raw.label) ∧
      (jsFalsyStr raw.label = true → stored.label = raw.name) ∧
      stored.value = raw.value ∧
      fmt.ParamName = "RH_IN:" ++ jsStr stored.name ∧
      fmt.data = numToString (stored.value.getD 0) := by
  have hinp : (setParameters st inputs).inputs = processInputs 0 inputs := rfl
  have hfmt : (setParameters st inputs).formatted
      = (processInputs 0 inputs).map formatEntry := rfl
  obtain ⟨raw, hraw⟩ : ∃ raw, inputs[i]? = some raw := by
    rw [List.getElem?_eq_getElem hi]
    exact ⟨_, rfl⟩
  have h1 : (setParameters st inputs).inputs[i]?
      = some { id := 0 + i
               name := jsOrStr raw.name raw.label
               label := jsOrStr raw.label raw.name
               value := raw.value
               default := raw.default
               min := raw.min
               max := raw.max
               description := raw.description } := by
    rw [hinp, processInputs_getElem?, hraw]
    rfl
  rw [Nat.zero_add] at h1
  have h2 : (setParameters st inputs).formatted[i]?
      = some (formatEntry
          { id := i
            name := jsOrStr raw.name raw.label
            label := jsOrStr raw.label raw.name
            value := raw.value
            default := raw.default
            min := raw.min
            max := raw.max
            description := raw.description }) := by
    rw [hfmt, List.getElem?_map, ← hinp, h1]
    rfl
  refine ⟨by rw [hinp, processInputs_length],
    by rw [hfmt, List.length_map, processInputs_length],
    raw, _, _, hraw, h1, h2, rfl, ?_, ?_, ?_, ?_, rfl, rfl, rfl⟩
  · intro hc
    show jsOrStr raw.name raw.label = raw.name
    rw [jsOrStr, hc]
    rfl
  · intro hc
    show jsOrStr raw.name raw.label = raw.label
    rw [jsOrStr, hc]
    rfl
  · intro hc
    show jsOrStr raw.label raw.name = raw.label
    rw [jsOrStr, hc]
    rfl
  · intro hc
    show jsOrStr raw.label raw.name = raw.name
    rw [jsOrStr, hc]
    rfl

/-- Witness for C10 at a concrete one-parameter payload. -/
theorem C10_setParameters_shape_witness :
    0 < c10Inputs.length ∧
    ((setParameters {} c10Inputs).inputs.length = c10Inputs.length ∧
     (setParameters {} c10Inputs).formatted.length = c10Inputs.length ∧
     ∃ raw stored fmt,
       c10Inputs[0]? = some raw ∧
       (setParameters {} c10Inputs).inputs[0]? = some stored ∧
       (setParameters {} c10Inputs).formatted[0]? = some fmt ∧
       stored.id = 0 ∧
       (jsFalsyStr raw.name = false → stored.name = raw.name) ∧
       (jsFalsyStr raw.name = true → stored.name = raw.label) ∧
       (jsFalsyStr raw.label = false → stored.label = raw.label) ∧
       (jsFalsyStr raw.label = true → stored.label = raw.name) ∧
       stored.value = raw.value ∧
       fmt.ParamName = "RH_IN:" ++ jsStr stored.name ∧
       fmt.data = numToString (stored.value.getD 0)) :=
  ⟨by decide, C10_setParameters_shape {} c10Inputs 0 (by decide)⟩

/-- C9: when `updateParameterValue` or `updateParameterByName` finds a
matching parameter it changes only that parameter's `value` field (the
element at the found index becomes the old record with the new value) and
recomputes the derived formatted array; every other list position and every
other store field is unchanged; and without a match the whole store state is
unchanged. -/
theorem C9_update_frame (st : StoreState) (id : Nat) (name : Option String)
    (v : ℚ) :
    (∀ ix, st.inputs.findIdx? (fun input => input.id == id) = some ix →
      ∃ old, st.inputs[ix]? = some old ∧
        (updateParameterValue st id v).inputs
          = st.inputs.set ix { old with value := some v } ∧
        (updateParameterValue st id v).formatted
          = (st.inputs.set ix { old with value := some v }).map formatEntry ∧
        ∀ j, j ≠ ix →
          (updateParameterValue st id v).inputs[j]? = st.inputs[j]?) ∧
    { updateParameterValue st id v with
        inputs := st.inputs, formatted := st.formatted } = st ∧
    (st.inputs.findIdx? (fun input => input.id == id) = none →
      updateParameterValue st id v = st) ∧
    (∀ ix, st.inputs.findIdx? (matchesName name) = some ix →
      ∃ old, st.inputs[ix]? = some old ∧
        (updateParameterByName st name v).inputs
          = st.inputs.set ix { old with value := some v } ∧
        (updateParameterByName st name v).formatted
          = (st.inputs.set ix { old with value := some v }).map formatEntry ∧
        ∀ j, j ≠ ix →
          (updateParameterByName st name v).inputs[j]? = st.inputs[j]?) ∧
    { updateParameterByName st name v with
        inputs := st.inputs, formatted := st.formatted } = st ∧
    (st.inputs.findIdx? (matchesName name) = none →
      updateParameterByName st name v = st) := by
  refine ⟨?_, ?_, ?_, ?_, ?_, ?_⟩
  · intro ix h
    have hlt := findIdx?_lt_length h
    have hg : st.inputs[ix]? = some (st.inputs.get ⟨ix, hlt⟩) := by
      rw [List.getElem?_eq_getElem hlt]
      rfl
    have hrep : replaceValueAt st.inputs ix v
        = st.inputs.set ix { st.inputs.get ⟨ix, hlt⟩ with value := some v } := by
      rw [replaceValueAt, hg]
    refine ⟨st.inputs.get ⟨ix, hlt⟩, hg, ?_, ?_, ?_⟩
    · rw [updateParameterValue_found v h, hrep]
    · rw [updateParameterValue_found v h, hrep]
    · intro j hj
      rw [updateParameterValue_found v h, hrep]
      exact List.getElem?_set_ne (fun hc => hj hc.symm)
  · unfold updateParameterValue
    cases st.inputs.findIdx? (fun input => input.id == id) with
    | none => rfl
    | some ix => rfl
  · intro h
    exact updateParameterValue_none v h
  · intro ix h
    have hlt := findIdx?_lt_length h
    have hg : st.inputs[ix]? = some (st.inputs.get ⟨ix, hlt⟩) := by
      rw [List.getElem?_eq_getElem hlt]
      rfl
    have hrep : replaceValueAt st.inputs ix v
        = st.inputs.set ix { st.inputs.get ⟨ix, hlt⟩ with value := some v } := by
      rw [replaceValueAt, hg]
    refine ⟨st.inputs.get ⟨ix, hlt⟩, hg, ?_, ?_, ?_⟩
    · rw [updateParameterByName_found v h, hrep]
    · rw [updateParameterByName_found v h, hrep]
    · intro j hj
      rw [updateParameterByName_found v h, hrep]
      exact List.getElem?_set_ne (fun hc => hj hc.symm)
  · unfold updateParameterByName
    cases st.inputs.findIdx? (matchesName name) with
    | none => rfl
    | some ix => rfl
  · intro h
    exact updateParameterByName_none v h

/-- Witness for C9 at the two-parameter example store. -/
theorem C9_update_frame_witness :
    whStore.inputs.findIdx? (fun input => input.id == 1) = some 1 ∧
    (updateParameterValue whStore 1 (9 : ℚ)).inputs[0]? = whStore.inputs[0]? :=
  ⟨by decide, by
    obtain ⟨old, _, _, _, hframe⟩ :=
      (C9_update_frame whStore 1 (some "height") 9).1 1 (by decide)
    exact hframe 0 (by decide)⟩

/-- C3 counterexample: the parameter `width` is bounded by `[0, 50]` and an
out-of-range delta `width := 70` stores 70 itself, not the nearest bound 50 —
`updateParameterByName` performs no clamping. -/
theorem C3_counterexample :
    (updateParameterByName widthStore (some "width") 70).inputs.map
        (fun p => p.value) = [some 70] ∧
    ¬ (updateParameterByName widthStore (some "width") 70).inputs.map
        (fun p => p.value) = [some 50] := by
  constructor
  · decide
  · decide

/-- C3 amended: applying a delta through `updateParameterByName` stores the
requested value unchanged — out-of-range values included, no clamping to
`[min, max]` happens — the apply operation is idempotent (re-applying the
same delta yields the same store), and the `params_update` payload is built
from the stored values, so the stored (unclamped) value is what gets
broadcast. -/
theorem C3_apply_unclamped_idempotent (st : StoreState) (name : Option String)
    (v : ℚ) (ix : Nat)
    (h : st.inputs.findIdx? (matchesName name) = some ix)
    (hnd : ((updateParameterByName st name v).inputs.map
      (fun p => jsStr p.name)).Nodup) :
    (∃ old, st.inputs[ix]? = some old ∧
      (updateParameterByName st name v).inputs[ix]?
        = some { old with value := some v }) ∧
    updateParameterByName (updateParameterByName st name v) name v
      = updateParameterByName st name v ∧
    paramsPayload (updateParameterByName st name v)
      = (updateParameterByName st name v).inputs.map
          (fun p => (jsStr p.name, p.value)) := by
  have hlt := findIdx?_lt_length h
  have hg : st.inputs[ix]? = some (st.inputs.get ⟨ix, hlt⟩) := by
    rw [List.getElem?_eq_getElem hlt]
    rfl
  have hrep : replaceValueAt st.inputs ix v
      = st.inputs.set ix { st.inputs.get ⟨ix, hlt⟩ with value := some v } := by
    rw [replaceValueAt, hg]
  have hinew : (updateParameterByName st name v).inputs[ix]?
      = some { st.inputs.get ⟨ix, hlt⟩ with value := some v } := by
    rw [updateParameterByName_found v h, hrep]
    exact List.getElem?_set_self hlt
  refine ⟨⟨st.inputs.get ⟨ix, hlt⟩, hg, hinew⟩, ?_, ?_⟩
  · have hfi2 : (updateParameterByName st name v).inputs.findIdx?
        (matchesName name) = some ix := by
      rw [← h]
      apply findIdx?_congr
      · rw [updateParameterByName_found v h, hrep, List.length_set]
      · intro j
        by_cases hij : ix = j
        · subst hij
          rw [hinew, hg]
          rfl
        · rw [updateParameterByName_found v h, hrep,
            List.getElem?_set_ne hij]
    rw [@updateParameterByName_found (updateParameterByName st name v) name ix v hfi2]
    have hrep2 : replaceValueAt (updateParameterByName st name v).inputs ix v
        = (updateParameterByName st name v).inputs := by
      rw [replaceValueAt, hinew]
      exact set_getElem?_self hinew
    rw [hrep2]
    rw [updateParameterByName_found v h]
  · exact paramsPayload_of_nodup _ hnd

/-- Witness for C3 amended: re-applying the out-of-range `width := 70` delta
is idempotent on the example store. -/
theorem C3_apply_unclamped_idempotent_witness :
    updateParameterByName (updateParameterByName widthStore (some "width") 70)
        (some "width") 70
      = updateParameterByName widthStore (some "width") 70 :=
  (C3_apply_unclamped_idempotent widthStore (some "width") 70 0
    (by decide) (by decide)).2.1

/-- Folding a batch of name-keyed deltas applies exactly its known-name
entries: entries whose name matches no stored parameter are no-ops wherever
they sit in the batch. -/
theorem foldl_update_filter_known (st : StoreState) :
    ∀ (params : List (String × ℚ)) (s : StoreState),
      s.inputs.map (fun p => (p.name, p.label))
        = st.inputs.map (fun p => (p.name, p.label)) →
      params.foldl (fun acc q => updateParameterByName acc (some q.1) q.2) s
        = (params.filter
            (fun q => st.inputs.any (matchesName (some q.1)))).foldl
            (fun acc q => updateParameterByName acc (some q.1) q.2) s := by
  intro params
  induction params with
  | nil => intro s _; rfl
  | cons q t ih =>
    intro s hs
    cases hk : st.inputs.any (matchesName (some q.1)) with
    | true =>
      simp only [List.filter_cons, hk, if_true, List.foldl_cons]
      exact ih (updateParameterByName s (some q.1) q.2)
        (by rw [updateParameterByName_nameLabel, hs])
    | false =>
      have hsk : s.inputs.any (matchesName (some q.1)) = false := by
        rw [any_matchesName_of_map_eq _ hs, hk]
      have hfi : s.inputs.findIdx? (matchesName (some q.1)) = none := by
        rw [List.findIdx?_eq_none_iff]
        intro x hx
        exact Bool.eq_false_iff.mpr (List.any_eq_false.mp hsk x hx)
      simp only [List.filter_cons, hk, Bool.false_eq_true, if_false,
        List.foldl_cons]
      rw [updateParameterByName_none _ hfi]
      exact ih s hs

/-- C4: a delta whose name matches no stored parameter (neither by name nor
by label) leaves the entire store state unchanged — hence no broadcast
mutation and no crash, the unknown name is simply dropped — while deltas for
known names in the same batch still apply: folding a batch equals folding
only its known-name entries. -/
theorem C4_unknown_name_dropped (st : StoreState) (n : String) (v : ℚ)
    (h : ∀ p ∈ st.inputs, matchesName (some n) p = false)
    (params : List (String × ℚ)) :
    updateParameterByName st (some n) v = st ∧
    params.foldl (fun acc q => updateParameterByName acc (some q.1) q.2) st
      = (params.filter
          (fun q => st.inputs.any (matchesName (some q.1)))).foldl
          (fun acc q => updateParameterByName acc (some q.1) q.2) st := by
  constructor
  · exact updateParameterByName_none v (List.findIdx?_eq_none_iff.mpr h)
  · exact foldl_update_filter_known st params st rfl

/-- Witness for C4: the LLM delta `depth := 12.5` names no registered
parameter of the width/height example store and leaves it untouched. -/
theorem C4_unknown_name_dropped_witness :
    updateParameterByName whStore (some "depth") (12.5 : ℚ) = whStore :=
  (C4_unknown_name_dropped whStore "depth" 12.5 (by decide)
    [("depth", 12.5), ("height", 9)]).1

/-- C7: a received `error` event is surfaced as a chat-visible response
message `Error: …` and resets the whole cycle state — `isThinking`,
`geometryLoading` and `isProcessing` all become false — so that a subsequent
prompt submission passes the watcher guard and is dispatched again (no
automatic retry, but retry is never blocked by stale state). -/
theorem C7_error_resets_cycle_state (c : ClientState) (message : String)
    (p : String) (hp1 : p ≠ "") (hp2 : jsTrim p ≠ "")
    (hp3 : p ≠ c.store.prompt) :
    (onError c message).store.isThinking = false ∧
    (onError c message).store.geometryLoading = false ∧
    (onError c message).isProcessing = false ∧
    (onError c message).store.allMessages = c.store.allMessages ++
      [{ text := "Error: " ++ message, type := "response",
         sender := "Assistant" }] ∧
    (handleNewMessage (onError c message) p).sentChats
      = (onError c message).sentChats ++
        [{ prompt := p
           params := (onError c message).store.inputs.map (fun q =>
             { name := q.name, label := q.label, value := q.value,
               min := q.min, max := q.max, description := q.description })
           username := (onError c message).store.username }] := by
  refine ⟨rfl, rfl, rfl, rfl, ?_⟩
  have htrim : ¬ ((jsTrim p == "") = true) := by
    simp [hp2]
  have hprompt : p ≠ (onError c message).store.prompt := hp3
  unfold handleNewMessage
  rw [if_neg htrim, if_pos hprompt]
  unfold promptWatcher
  rw [if_pos ⟨hp1, hp2, rfl⟩]
  rfl

/-- Witness for C7: after an error on the fresh client, a new prompt is
dispatched again. -/
theorem C7_error_resets_cycle_state_witness :
    (handleNewMessage (onError ({} : ClientState) "boom") "wider").sentChats
      = [{ prompt := "wider", params := [], username := "" }] :=
  (C7_error_resets_cycle_state {} "boom" "wider" (by decide) (by decide)
    (by decide)).2.2.2.2

/-- C6: the hub delivers a user chat message to every connected session, the
originator included, with the self/foreign tag computed per receiver; the
client never appends its own outgoing chat message locally (submitting only
stores the prompt and switches thinking on); and a received `chat_message` of
type `user` appends exactly one message whose sender is the event's username
when present (non-falsy), otherwise `You` when `from_self` and `User`
otherwise. -/
theorem C6_broadcast_and_receiver_classification
    (sessions : List Nat) (origin : Nat) (content : String)
    (username : Option String) (c : ClientState) (text : String)
    (e : ChatMessageEvent) (he : e.type = "user") :
    (broadcastChatMessage sessions origin content username).map Prod.fst
      = sessions ∧
    (∀ d ∈ broadcastChatMessage sessions origin content username,
      d.2.from_self = (d.1 == origin) ∧ d.2.content = content) ∧
    (handleNewMessage c text).store.chatMessages = c.store.chatMessages ∧
    (handleNewMessage c text).store.allMessages = c.store.allMessages ∧
    ∃ msg,
      (onChatMessage c e).store.chatMessages
        = c.store.chatMessages ++ [msg] ∧
      (onChatMessage c e).store.allMessages
        = c.store.allMessages ++ [msg] ∧
      msg.type = "user" ∧
      msg.text = e.content ∧
      (jsFalsyStr e.username = false → some msg.sender = e.username) ∧
      (jsFalsyStr e.username = true →
        msg.sender = if e.from_self then "You" else "User") := by
  refine ⟨?_, ?_, ?_, ?_, ?_⟩
  · rw [broadcastChatMessage, List.map_map]
    exact List.map_id sessions
  · intro d hd
    rw [broadcastChatMessage] at hd
    obtain ⟨sid, _, rfl⟩ := List.mem_map.mp hd
    exact ⟨rfl, rfl⟩
  · unfold handleNewMessage
    by_cases h1 : (jsTrim text == "") = true
    · rw [if_pos h1]
    · rw [if_neg h1]
      by_cases h2 : text ≠ c.store.prompt
      · rw [if_pos h2]
        unfold promptWatcher
        by_cases h3 : text ≠ "" ∧ jsTrim text ≠ "" ∧
            ({ c with store := setThinking (setPrompt c.store text) true
                      : ClientState }).isProcessing = false
        · rw [if_pos h3]
          rfl
        · rw [if_neg h3]
          rfl
      · rw [if_neg h2]
        rfl
  · unfold handleNewMessage
    by_cases h1 : (jsTrim text == "") = true
    · rw [if_pos h1]
    · rw [if_neg h1]
      by_cases h2 : text ≠ c.store.prompt
      · rw [if_pos h2]
        unfold promptWatcher
        by_cases h3 : text ≠ "" ∧ jsTrim text ≠ "" ∧
            ({ c with store := setThinking (setPrompt c.store text) true
                      : ClientState }).isProcessing = false
        · rw [if_pos h3]
          rfl
        · rw [if_neg h3]
          rfl
      · rw [if_neg h2]
        rfl
  · have hcond : (e.type == "user") = true := by
      rw [he]
      rfl
    refine ⟨{ text := e.content, type := "user",
              sender := jsStrOr e.username
                (if e.from_self then "You" else "User") }, ?_, ?_, rfl, rfl,
              ?_, ?_⟩
    · unfold onChatMessage
      rw [hcond]
      simp only [if_true]
      unfold addUserMessage
      have : jsStrOr (some (jsStrOr e.username
          (if e.from_self then "You" else "User"))) "User"
          = jsStrOr e.username (if e.from_self then "You" else "User") := by
        cases hu : e.username with
        | none =>
          cases e.from_self with
          | true => rfl
          | false => rfl
        | some s =>
          by_cases hs : (s == "") = true
          · cases e.from_self with
            | true => simp [jsStrOr, hs]
            | false => simp [jsStrOr, hs]
          · simp [jsStrOr, hs]
      rw [this]
    · unfold onChatMessage
      rw [hcond]
      simp only [if_true]
      unfold addUserMessage
      have : jsStrOr (some (jsStrOr e.username
          (if e.from_self then "You" else "User"))) "User"
          = jsStrOr e.username (if e.from_self then "You" else "User") := by
        cases hu : e.username with
        | none =>
          cases e.from_self with
          | true => rfl
          | false => rfl
        | some s =>
          by_cases hs : (s == "") = true
          · cases e.from_self with
            | true => simp [jsStrOr, hs]
            | false => simp [jsStrOr, hs]
          · simp [jsStrOr, hs]
      rw [this]
    · intro hu
      cases hv : e.username with
      | none =>
        rw [hv] at hu
        exact absurd hu (by decide)
      | some s =>
        rw [hv] at hu
        have hs : (s == "") = false := by
          rw [jsFalsyStr] at hu
          exact hu
        show some (jsStrOr (some s) (if e.from_self then "You" else "User"))
          = some s
        rw [jsStrOr, hs]
        simp
    · intro hu
      cases hv : e.username with
      | none => rfl
      | some s =>
        rw [hv] at hu
        have hs : (s == "") = true := by
          rw [jsFalsyStr] at hu
          exact hu
        show jsStrOr (some s) (if e.from_self then "You" else "User")
          = if e.from_self then "You" else "User"
        rw [jsStrOr, hs]
        simp

/-- Witness for C6: a broadcast to two sessions reaches both, and a fresh
client appends nothing when submitting. -/
theorem C6_broadcast_witness :
    (broadcastChatMessage [0, 1] 0 "hi" none).map Prod.fst = [0, 1] ∧
    (handleNewMessage ({} : ClientState) "hello").store.chatMessages = [] := by
  obtain ⟨h1, _, h3, _, _⟩ := C6_broadcast_and_receiver_classification
    [0, 1] 0 "hi" none {} "hello"
    { type := "user", content := "hi", username := none, from_self := true } rfl
  exact ⟨h1, h3⟩

/-- A step of the chat machine preserves the single-flight invariant:
outstanding chat requests never exceed one, and they are zero whenever
`isProcessing` is down. -/
theorem chatStep_preserves_inv (c : ClientState) (e : ChatEvent)
    (h1 : c.outstandingChats ≤ 1)
    (h2 : c.isProcessing = false → c.outstandingChats = 0) :
    (chatStep c e).outstandingChats ≤ 1 ∧
    ((chatStep c e).isProcessing = false →
      (chatStep c e).outstandingChats = 0) := by
  cases e with
  | submit text =>
    show (handleNewMessage c text).outstandingChats ≤ 1 ∧
      ((handleNewMessage c text).isProcessing = false →
        (handleNewMessage c text).outstandingChats = 0)
    unfold handleNewMessage
    by_cases ht : (jsTrim text == "") = true
    · rw [if_pos ht]
      exact ⟨h1, h2⟩
    · rw [if_neg ht]
      by_cases hp : text ≠ c.store.prompt
      · rw [if_pos hp]
        unfold promptWatcher
        by_cases hc : text ≠ "" ∧ jsTrim text ≠ "" ∧
            ({ c with store := setThinking (setPrompt c.store text) true
                      : ClientState }).isProcessing = false
        · rw [if_pos hc]
          constructor
          · show c.outstandingChats + 1 ≤ 1
            have h0 : c.outstandingChats = 0 := h2 hc.2.2
            omega
          · intro hfalse
            exact Bool.noConfusion hfalse
        · rw [if_neg hc]
          exact ⟨h1, h2⟩
      · rw [if_neg hp]
        exact ⟨h1, h2⟩
  | geometryResult g =>
    refine ⟨?_, fun _ => ?_⟩
    · show c.outstandingChats - 1 ≤ 1
      omega
    · show c.outstandingChats - 1 = 0
      omega
  | errorEvt m =>
    refine ⟨?_, fun _ => ?_⟩
    · show c.outstandingChats - 1 ≤ 1
      omega
    · show c.outstandingChats - 1 = 0
      omega
  | llmResponse ps =>
    show (onChatLlmResponse c ps).outstandingChats ≤ 1 ∧
      ((onChatLlmResponse c ps).isProcessing = false →
        (onChatLlmResponse c ps).outstandingChats = 0)
    unfold onChatLlmResponse
    by_cases hl : ps.length > 0
    · rw [if_pos hl]
      exact ⟨h1, h2⟩
    · rw [if_neg hl]
      exact ⟨h1, h2⟩
  | processing =>
    exact ⟨h1, fun hf => h2 hf⟩

/-- The single-flight invariant holds at every state reachable from the
initial client state. -/
theorem chatRun_inv (events : List ChatEvent) :
    (chatRun events).outstandingChats ≤ 1 ∧
    ((chatRun events).isProcessing = false →
      (chatRun events).outstandingChats = 0) := by
  suffices h : ∀ (evs : List ChatEvent) (c : ClientState),
      c.outstandingChats ≤ 1 → (c.isProcessing = false → c.outstandingChats = 0) →
      (evs.foldl chatStep c).outstandingChats ≤ 1 ∧
      ((evs.foldl chatStep c).isProcessing = false →
        (evs.foldl chatStep c).outstandingChats = 0) by
    exact h events {} (by decide) (fun _ => rfl)
  intro evs
  induction evs with
  | nil => intro c h1 h2; exact ⟨h1, h2⟩
  | cons e t ih =>
    intro c h1 h2
    simp only [List.foldl_cons]
    obtain ⟨g1, g2⟩ := chatStep_preserves_inv c e h1 h2
    exact ih (chatStep c e) g1 g2

/-- C5 counterexample: submitting prompt `b` while prompt `a` is still being
processed dispatches only `a`; `b` is silently dropped and is not processed
after `a` completes — there is no FIFO queue of prompts. -/
theorem C5_counterexample :
    ((chatRun [ChatEvent.submit "a", ChatEvent.submit "b",
        ChatEvent.geometryResult none]).sentChats.map (fun r => r.prompt)
      = ["a"]) ∧
    ¬ ("b" ∈ (chatRun [ChatEvent.submit "a", ChatEvent.submit "b",
        ChatEvent.geometryResult none]).sentChats.map (fun r => r.prompt)) := by
  exact ⟨by decide, by decide⟩

/-- C5 amended: at most one chat prompt is in flight at a time (the
`isProcessing` guard keeps the number of outstanding chat requests at or
below one at every reachable state), but a second prompt submitted while one
is in flight is not queued: it is dropped without emitting a `chat_request`
(the emission log is unchanged). -/
theorem C5_single_flight_drop (events : List ChatEvent) (c : ClientState)
    (hproc : c.isProcessing = true) (text : String) :
    (chatRun events).outstandingChats ≤ 1 ∧
    (handleNewMessage c text).sentChats = c.sentChats := by
  refine ⟨(chatRun_inv events).1, ?_⟩
  unfold handleNewMessage
  by_cases ht : (jsTrim text == "") = true
  · rw [if_pos ht]
  · rw [if_neg ht]
    by_cases hp : text ≠ c.store.prompt
    · rw [if_pos hp]
      unfold promptWatcher
      rw [if_neg (fun hc => Bool.noConfusion (hproc.symm.trans hc.2.2))]
    · rw [if_neg hp]

/-- Witness for C5 amended at a concrete trace and in-flight state. -/
theorem C5_single_flight_drop_witness :
    (chatRun [ChatEvent.submit "a", ChatEvent.submit "b",
      ChatEvent.geometryResult none]).outstandingChats ≤ 1 ∧
    (handleNewMessage (chatRun [ChatEvent.submit "a"]) "b").sentChats
      = (chatRun [ChatEvent.submit "a"]).sentChats :=
  C5_single_flight_drop
    [ChatEvent.submit "a", ChatEvent.submit "b", ChatEvent.geometryResult none]
    (chatRun [ChatEvent.submit "a"]) (by decide) "b"

/-- The store component of the sync fold is the fold of the store components
of each `syncStep`. -/
theorem syncFold_fst (ps : List RawInput) : ∀ (st : StoreState) (b : Bool),
    (ps.foldl
      (fun (acc : StoreState × Bool) sp =>
        let out := syncStep acc.1 sp
        (out.1, acc.2 || out.2))
      (st, b)).1
      = ps.foldl (fun acc sp => (syncStep acc sp).1) st := by
  induction ps with
  | nil => intro st b; rfl
  | cons sp t ih =>
    intro st b
    simp only [List.foldl_cons]
    exact ih (syncStep st sp).1 (b || (syncStep st sp).2)

/-- C8 counterexample: a `params_sync` from source `grasshopper` arriving
while the client's local parameter set is empty takes the initial-load branch
of `handleParamsFromServer`, which never raises `isSyncingFromServer`; the
formatted watcher then fires unsuppressed and the debounce timer emits a
`params_update` back to the hub. -/
theorem C8_counterexample :
    (processParamsSync ({} : ClientState) "grasshopper"
        [{ name := some "width", value := some 20 }]).sentParams
      = [[("width", some 20)]] ∧
    (processParamsSync ({} : ClientState) "grasshopper"
        [{ name := some "width", value := some 20 }]).sentParams ≠ [] := by
  exact ⟨by decide, by decide⟩

/-- C8 amended: when the client already holds a non-empty parameter set,
processing a grasshopper `params_sync` emits no `params_update` (the sync
branch raises `isSyncingFromServer`, so the watcher flush is suppressed), the
resulting inputs are exactly the fold of the per-parameter sync steps, and a
sync step whose server value equals the local value leaves the store
untouched (only differing values are updated); only when the local set is
empty does the sync take the unsuppressed initial-load path and trigger an
emission. -/
theorem C8_sync_no_echo (c : ClientState) (serverParams : List RawInput)
    (hne : c.store.inputs.length ≠ 0) (hpd : c.pendingDispatch = false) :
    (processParamsSync c "grasshopper" serverParams).sentParams
      = c.sentParams ∧
    (processParamsSync c "grasshopper" serverParams).store.inputs
      = (serverParams.foldl (fun acc sp => (syncStep acc sp).1) c.store).inputs ∧
    (∀ (st : StoreState) (sp : RawInput) (lp : Input),
      st.inputs.find? (fun p => p.name == jsOrStr sp.name sp.label) = some lp →
      lp.value = some (sp.value.getD 0) →
      syncStep st sp = (st, false)) := by
  have key : processParamsSync c "grasshopper" serverParams
      = { c with
            store := (serverParams.foldl
              (fun (acc : StoreState × Bool) sp =>
                let out := syncStep acc.1 sp
                (out.1, acc.2 || out.2))
              (c.store, false)).1
            isSyncingFromServer := false } := by
    unfold processParamsSync handleParamsFromServer watcherFlush debounceFire
    rw [if_pos (show ("grasshopper" == "grasshopper") = true from rfl)]
    by_cases hlen : (serverParams.length == 0) = true
    · have hps : serverParams = [] := by
        cases serverParams with
        | nil => rfl
        | cons a t => exact absurd hlen (by simp)
      subst hps
      rw [if_pos hlen]
      dsimp only
      simp only [Bool.not_true, Bool.and_false, Bool.false_and,
        Bool.false_eq_true, if_false, hpd]
      simp [hpd]
    · rw [if_neg hlen]
      rw [if_neg (show ¬ ((false || (c.store.inputs.length == 0)) = true) by
        simp [hne])]
      dsimp only
      simp only [Bool.not_true, Bool.and_false, Bool.false_and,
        Bool.false_eq_true, if_false, hpd]
  refine ⟨by rw [key], ?_, ?_⟩
  · rw [key]
    show (serverParams.foldl
        (fun (acc : StoreState × Bool) sp =>
          let out := syncStep acc.1 sp
          (out.1, acc.2 || out.2))
        (c.store, false)).1.inputs = _
    rw [syncFold_fst]
  · intro st sp lp hfind hval
    unfold syncStep
    dsimp only
    rw [hfind]
    dsimp only
    rw [if_pos (show (lp.value == some (sp.value.getD 0)) = true by
      rw [hval]; exact beq_self_eq_true _)]

/-- Witness for C8 amended at a store that already holds parameters. -/
theorem C8_sync_no_echo_witness :
    (processParamsSync ({ store := whStore } : ClientState) "grasshopper"
        [{ name := some "width", value := some 30 }]).sentParams
      = ({ store := whStore } : ClientState).sentParams :=
  (C8_sync_no_echo { store := whStore }
    [{ name := some "width", value := some 30 }] (by decide) rfl).1

/-- Indices of equal elements in a duplicate-free list coincide. -/
theorem nodup_getElem?_inj {α : Type} {l : List α} (h : l.Nodup) {i j : Nat}
    {a : α} (hi : l[i]? = some a) (hj : l[j]? = some a) : i = j := by
  have hi2 : i < l.length := by
    by_contra hc
    rw [List.getElem?_eq_none (by omega)] at hi
    exact Option.noConfusion hi
  have hj2 : j < l.length := by
    by_contra hc
    rw [List.getElem?_eq_none (by omega)] at hj
    exact Option.noConfusion hj
  rw [List.getElem?_eq_getElem hi2] at hi
  rw [List.getElem?_eq_getElem hj2] at hj
  have heq : l.get ⟨i, hi2⟩ = l.get ⟨j, hj2⟩ := by
    have h1 : l.get ⟨i, hi2⟩ = a := Option.some.inj hi
    have h2 : l.get ⟨j, hj2⟩ = a := Option.some.inj hj
    rw [h1, h2]
  exact (List.Nodup.getElem_inj_iff h).mp heq

/-- `any` on an id test is determined by the id column. -/
theorem any_id_of_map_eq {s t : List Input} (n : Nat)
    (h : s.map (fun p => p.id) = t.map (fun p => p.id)) :
    s.any (fun i => i.id == n) = t.any (fun i => i.id == n) := by
  have key : ∀ (l : List Input), l.any (fun i => i.id == n)
      = (l.map (fun p => p.id)).any (fun x => x == n) := by
    intro l
    rw [any_map_comp]
  rw [key, key, h]

/-- Folding timed deltas through `updateParameterValue` never changes the id
column. -/
theorem foldDeltas_ids (deltas : List TimedDelta) : ∀ (st : StoreState),
    ((deltas.foldl (fun s d => updateParameterValue s d.id d.value) st).inputs.map
      (fun p => p.id)) = st.inputs.map (fun p => p.id) := by
  induction deltas with
  | nil => intro st; rfl
  | cons d t ih =>
    intro st
    simp only [List.foldl_cons]
    rw [ih, updateParameterValue_ids]

/-- Element-level description of `updateParameterValue` under duplicate-free
ids: the element at `ix` gets the new value exactly when its id is the
targeted one, and is untouched otherwise. -/
theorem updateParameterValue_getElem_nodup (st : StoreState) (n : Nat) (v : ℚ)
    (hnd : (st.inputs.map (fun p => p.id)).Nodup)
    (ix : Nat) (p : Input) (hp : st.inputs[ix]? = some p) :
    (updateParameterValue st n v).inputs[ix]?
      = some (if (p.id == n) = true then { p with value := some v } else p) := by
  cases hfi : st.inputs.findIdx? (fun input => input.id == n) with
  | none =>
    rw [updateParameterValue_none v hfi]
    have hfalse : (p.id == n) = false :=
      List.findIdx?_eq_none_iff.mp hfi p (List.getElem?_mem hp)
    rw [hfalse]
    simp only [Bool.false_eq_true, if_false]
    exact hp
  | some j =>
    obtain ⟨old, hold, holdp⟩ := findIdx?_found hfi
    have hrep : replaceValueAt st.inputs j v
        = st.inputs.set j { old with value := some v } := by
      rw [replaceValueAt, hold]
    have hids : st.inputs[ix]?.map (fun q => q.id) = some p.id := by
      rw [hp]
      rfl
    by_cases hij : j = ix
    · subst hij
      have hpo : p = old := by
        rw [hp] at hold
        exact Option.some.inj hold
      rw [updateParameterValue_found v hfi]
      show (replaceValueAt st.inputs j v)[j]? = _
      rw [hrep, List.getElem?_set_self (findIdx?_lt_length hfi)]
      simp [hpo, holdp]
    · rw [updateParameterValue_found v hfi]
      show (replaceValueAt st.inputs j v)[ix]? = _
      rw [hrep, List.getElem?_set_ne hij, hp]
      have hfalse : (p.id == n) = false := by
        cases hc : (p.id == n) with
        | false => rfl
        | true =>
          have hpn : p.id = n := beq_iff_eq.mp hc
          have hon : old.id = n := beq_iff_eq.mp holdp
          have hmi : (st.inputs.map (fun q => q.id))[ix]? = some n := by
            rw [List.getElem?_map, hp]
            show some p.id = some n
            rw [hpn]
          have hmj : (st.inputs.map (fun q => q.id))[j]? = some n := by
            rw [List.getElem?_map, hold]
            show some old.id = some n
            rw [hon]
          exact absurd (nodup_getElem?_inj hnd hmj hmi) hij
      rw [hfalse]
      rfl

/-- Key-wise last-write-wins: folding timed deltas through
`updateParameterValue` leaves each parameter's value at the last delta
targeting its id, or at its original value when none does. -/
theorem foldDeltas_lww : ∀ (deltas : List TimedDelta) (st : StoreState),
    (st.inputs.map (fun p => p.id)).Nodup →
    ∀ (ix : Nat) (p : Input), st.inputs[ix]? = some p →
      (deltas.foldl (fun s d => updateParameterValue s d.id d.value) st).inputs[ix]?
        = some { p with value :=
            match (deltas.filter (fun d => d.id == p.id)).getLast? with
            | some d => some d.value
            | none => p.value } := by
  intro deltas
  induction deltas with
  | nil =>
    intro st hnd ix p hp
    simp only [List.foldl_nil, List.filter_nil]
    rw [hp]
    rfl
  | cons d t ih =>
    intro st hnd ix p hp
    simp only [List.foldl_cons, List.filter_cons]
    have hnd1 : ((updateParameterValue st d.id d.value).inputs.map
        (fun q => q.id)).Nodup := by
      rw [updateParameterValue_ids]
      exact hnd
    by_cases hpd : p.id = d.id
    · have hbt : (p.id == d.id) = true := beq_iff_eq.mpr hpd
      have hbt2 : (d.id == p.id) = true := beq_iff_eq.mpr hpd.symm
      have hp1 : (updateParameterValue st d.id d.value).inputs[ix]?
          = some { p with value := some d.value } := by
        rw [updateParameterValue_getElem_nodup st d.id d.value hnd ix p hp, hbt]
        rfl
      rw [ih (updateParameterValue st d.id d.value) hnd1 ix
        { p with value := some d.value } hp1]
      rw [hbt2]
      simp only [if_true]
      cases hft : t.filter (fun e => e.id == p.id) with
      | nil => rfl
      | cons a l =>
        cases hgl : (a :: l).getLast? with
        | none => simp at hgl
        | some e =>
          rw [List.getLast?_cons_cons, hgl]
    · have hbf : (p.id == d.id) = false := by
        cases hc : (p.id == d.id) with
        | false => rfl
        | true => exact absurd (beq_iff_eq.mp hc) hpd
      have hbf2 : (d.id == p.id) = false := by
        cases hc : (d.id == p.id) with
        | false => rfl
        | true => exact absurd (beq_iff_eq.mp hc).symm hpd
      have hp1 : (updateParameterValue st d.id d.value).inputs[ix]?
          = some p := by
        rw [updateParameterValue_getElem_nodup st d.id d.value hnd ix p hp, hbf]
        rfl
      rw [ih (updateParameterValue st d.id d.value) hnd1 ix p hp1, hbf2]
      rfl

/-- While the quiet-period timer stays ahead of each arriving edit, the
debouncer fold applies every edit to the store, keeps re-arming the timer,
and sends nothing. -/
theorem debounce_foldl_armed : ∀ (deltas : List TimedDelta) (st : StoreState)
    (sent : List ParamsObject) (dl : Nat),
    (∀ e ∈ deltas, st.inputs.any (fun i => i.id == e.id) = true) →
    List.Chain' (fun a b => b.time < a.time + DEBOUNCE_MS) deltas →
    (∀ e, deltas.head? = some e → e.time < dl) →
    deltas.foldl applyTimedDelta { store := st, deadline := some dl, sent := sent }
      = { store := deltas.foldl
            (fun s e => updateParameterValue s e.id e.value) st
          deadline := some (match deltas.getLast? with
            | some e => e.time + DEBOUNCE_MS
            | none => dl)
          sent := sent } := by
  intro deltas
  induction deltas with
  | nil => intro st sent dl _ _ _; rfl
  | cons e t ih =>
    intro st sent dl hfound hchain hhead
    simp only [List.foldl_cons]
    have hstep : applyTimedDelta { store := st, deadline := some dl, sent := sent } e
        = { store := updateParameterValue st e.id e.value
            deadline := some (e.time + DEBOUNCE_MS), sent := sent } := by
      unfold applyTimedDelta fireIfDue
      dsimp only
      rw [if_neg (show ¬ (dl ≤ e.time) by
        have := hhead e rfl
        omega)]
      rw [if_pos (hfound e (List.mem_cons_self e t))]
    rw [hstep]
    have hfound1 : ∀ x ∈ t,
        ((updateParameterValue st e.id e.value).inputs.any
          (fun i => i.id == x.id)) = true := by
      intro x hx
      rw [any_id_of_map_eq x.id (updateParameterValue_ids st e.id e.value)]
      exact hfound x (List.mem_cons_of_mem e hx)
    cases t with
    | nil => rfl
    | cons e2 t2 =>
      obtain ⟨hrel, hchain2⟩ := List.chain'_cons.mp hchain
      rw [ih (updateParameterValue st e.id e.value) sent (e.time + DEBOUNCE_MS)
        hfound1 hchain2 (fun x hxh => by
          rw [List.head?_cons] at hxh
          rw [← Option.some.inj hxh]
          exact hrel)]
      rw [List.getLast?_cons_cons]
      cases hgl : (e2 :: t2).getLast? with
      | none => simp at hgl
      | some x => rfl

/-- C2: for every sequence of client slider edits within one debounce window
(each successive edit arriving less than `DEBOUNCE_MS` after the previous
one), exactly one `params_update` dispatch is emitted, its payload is read
from the store after all edits, and that store is the key-wise
last-write-wins merge of the edits into the starting store: each parameter
ends at the value of the last edit targeting its id, or at its original
value. -/
theorem C2_debounce_single_dispatch_lww (st : StoreState)
    (deltas : List TimedDelta) (hne : deltas ≠ [])
    (hchain : List.Chain' (fun a b => b.time < a.time + DEBOUNCE_MS) deltas)
    (hfound : ∀ d ∈ deltas, st.inputs.any (fun i => i.id == d.id) = true)
    (hids : (st.inputs.map (fun p => p.id)).Nodup) :
    (debounceRun st deltas).sent
      = [paramsPayload (deltas.foldl
          (fun s d => updateParameterValue s d.id d.value) st)] ∧
    ∀ (ix : Nat) (p : Input), st.inputs[ix]? = some p →
      (deltas.foldl (fun s d => updateParameterValue s d.id d.value) st).inputs[ix]?
        = some { p with value :=
            match (deltas.filter (fun d => d.id == p.id)).getLast? with
            | some d => some d.value
            | none => p.value } := by
  refine ⟨?_, foldDeltas_lww deltas st hids⟩
  cases deltas with
  | nil => exact absurd rfl hne
  | cons d t =>
    unfold debounceRun
    simp only [List.foldl_cons]
    have hstep0 : applyTimedDelta { store := st, deadline := none, sent := [] } d
        = { store := updateParameterValue st d.id d.value
            deadline := some (d.time + DEBOUNCE_MS), sent := [] } := by
      unfold applyTimedDelta fireIfDue
      dsimp only
      rw [if_pos (hfound d (List.mem_cons_self d t))]
    rw [hstep0]
    have hfound1 : ∀ x ∈ t,
        ((updateParameterValue st d.id d.value).inputs.any
          (fun i => i.id == x.id)) = true := by
      intro x hx
      rw [any_id_of_map_eq x.id (updateParameterValue_ids st d.id d.value)]
      exact hfound x (List.mem_cons_of_mem d hx)
    cases t with
    | nil =>
      unfold flushDebounce
      rfl
    | cons e2 t2 =>
      obtain ⟨hrel, hchain2⟩ := List.chain'_cons.mp hchain
      rw [debounce_foldl_armed (e2 :: t2) (updateParameterValue st d.id d.value)
        [] (d.time + DEBOUNCE_MS) hfound1 hchain2 (fun x hxh => by
          rw [List.head?_cons] at hxh
          rw [← Option.some.inj hxh]
          exact hrel)]
      unfold flushDebounce
      rfl

/-- Witness for C2: the height edits 8 then 9, 20 ms apart, produce exactly
one dispatch whose payload carries height 9. -/
theorem C2_debounce_witness :
    (debounceRun whStore
      [{ time := 100, id := 1, value := 8 }, { time := 120, id := 1, value := 9 }]).sent
      = [paramsPayload
          ([({ time := 100, id := 1, value := 8 } : TimedDelta),
            { time := 120, id := 1, value := 9 }].foldl
            (fun s d => updateParameterValue s d.id d.value) whStore)] :=
  (C2_debounce_single_dispatch_lww whStore
    [{ time := 100, id := 1, value := 8 }, { time := 120, id := 1, value := 9 }]
    (by decide)
    (List.chain'_cons.mpr ⟨by decide, List.chain'_singleton _⟩)
    (by decide) (by decide)).1

/-- Step preservation of the gate invariant: at most one snapshot in flight,
at most one snapshot retained, and a retained snapshot implies an in-flight
cycle. -/
theorem hubStep_preserves_inv (s : HubState) (e : HubEvent)
    (h1 : s.inFlight.length ≤ 1) (h2 : s.retained.length ≤ 1)
    (h3 : s.retained ≠ [] → s.inFlight ≠ []) :
    (hubStep s e).inFlight.length ≤ 1 ∧
    (hubStep s e).retained.length ≤ 1 ∧
    ((hubStep s e).retained ≠ [] → (hubStep s e).inFlight ≠ []) := by
  cases e with
  | clientDelta d => exact ⟨h1, h2, h3⟩
  | llmDelta d => exact ⟨h1, h2, h3⟩
  | cadDelta d => exact ⟨h1, h2, h3⟩
  | debounceExpiry =>
    show (hubStep s HubEvent.debounceExpiry).inFlight.length ≤ 1 ∧
      (hubStep s HubEvent.debounceExpiry).retained.length ≤ 1 ∧
      ((hubStep s HubEvent.debounceExpiry).retained ≠ [] →
        (hubStep s HubEvent.debounceExpiry).inFlight ≠ [])
    unfold hubStep
    cases hacc : s.accum with
    | none => exact ⟨h1, h2, h3⟩
    | some snap =>
      dsimp only
      by_cases hif : s.inFlight.isEmpty = true
      · rw [if_pos hif]
        refine ⟨by simp, h2, fun _ => ?_⟩
        exact List.cons_ne_nil snap []
      · rw [if_neg hif]
        refine ⟨h1, by simp, fun _ hc => ?_⟩
        apply hif
        rw [hc]
        rfl
  | cycleComplete =>
    show (hubComplete s).inFlight.length ≤ 1 ∧
      (hubComplete s).retained.length ≤ 1 ∧
      ((hubComplete s).retained ≠ [] → (hubComplete s).inFlight ≠ [])
    unfold hubComplete
    cases hifc : s.inFlight with
    | nil => exact ⟨h1, h2, h3⟩
    | cons x rest =>
      have hrest : rest = [] := by
        rw [hifc] at h1
        simp only [List.length_cons] at h1
        exact List.length_eq_zero.mp (by omega)
      subst hrest
      cases hret : s.retained with
      | nil =>
        dsimp only
        exact ⟨by simp, by simp, fun hr => absurd rfl hr⟩
      | cons r rrest =>
        dsimp only
        exact ⟨by simp, by simp, fun hr => absurd rfl hr⟩
  | cycleError =>
    show (hubComplete s).inFlight.length ≤ 1 ∧
      (hubComplete s).retained.length ≤ 1 ∧
      ((hubComplete s).retained ≠ [] → (hubComplete s).inFlight ≠ [])
    unfold hubComplete
    cases hifc : s.inFlight with
    | nil => exact ⟨h1, h2, h3⟩
    | cons x rest =>
      have hrest : rest = [] := by
        rw [hifc] at h1
        simp only [List.length_cons] at h1
        exact List.length_eq_zero.mp (by omega)
      subst hrest
      cases hret : s.retained with
      | nil =>
        dsimp only
        exact ⟨by simp, by simp, fun hr => absurd rfl hr⟩
      | cons r rrest =>
        dsimp only
        exact ⟨by simp, by simp, fun hr => absurd rfl hr⟩

/-- The gate invariant holds at every state reachable from the initial hub
state. -/
theorem hubRun_inv (events : List HubEvent) :
    (hubRun events).inFlight.length ≤ 1 ∧
    (hubRun events).retained.length ≤ 1 ∧
    ((hubRun events).retained ≠ [] → (hubRun events).inFlight ≠ []) := by
  suffices h : ∀ (evs : List HubEvent) (s : HubState),
      s.inFlight.length ≤ 1 → s.retained.length ≤ 1 →
      (s.retained ≠ [] → s.inFlight ≠ []) →
      (evs.foldl hubStep s).inFlight.length ≤ 1 ∧
      (evs.foldl hubStep s).retained.length ≤ 1 ∧
      ((evs.foldl hubStep s).retained ≠ [] → (evs.foldl hubStep s).inFlight ≠ []) by
    exact h events {} (by decide) (by decide) (fun hc => absurd rfl hc)
  intro evs
  induction evs with
  | nil => intro s h1 h2 h3; exact ⟨h1, h2, h3⟩
  | cons e t ih =>
    intro s h1 h2 h3
    simp only [List.foldl_cons]
    obtain ⟨g1, g2, g3⟩ := hubStep_preserves_inv s e h1 h2 h3
    exact ih (hubStep s e) g1 g2 g3

/-- C1: at every hub state reachable by any sequence of client-, CAD- and
LLM-originated deltas, timer expiries, completions and errors, at most one
compute cycle is in flight and at most one pending snapshot is retained
(never a queue of depth greater than one); and when a snapshot `r` is
retained while a cycle is in flight, completing that cycle dispatches exactly
`r` as the single follow-up: the gate moves to in-flight on `r`, the retained
slot empties, and the dispatch log grows by exactly `[r]`. -/
theorem C1_gate_single_flight (events : List HubEvent) :
    (hubRun events).inFlight.length ≤ 1 ∧
    (hubRun events).retained.length ≤ 1 ∧
    (∀ (r : Snapshot) (rest : List Snapshot),
      (hubRun events).retained = r :: rest →
      (hubStep (hubRun events) HubEvent.cycleComplete).inFlight = [r] ∧
      (hubStep (hubRun events) HubEvent.cycleComplete).retained = [] ∧
      (hubStep (hubRun events) HubEvent.cycleComplete).dispatched
        = (hubRun events).dispatched ++ [r]) := by
  obtain ⟨h1, h2, h3⟩ := hubRun_inv events
  refine ⟨h1, h2, fun r rest hret => ?_⟩
  have hne : (hubRun events).inFlight ≠ [] := h3 (by rw [hret]; exact List.cons_ne_nil r rest)
  cases hif : (hubRun events).inFlight with
  | nil => exact absurd hif hne
  | cons x rest2 =>
    have hrest2 : rest2 = [] := by
      rw [hif] at h1
      simp only [List.length_cons] at h1
      exact List.length_eq_zero.mp (by omega)
    subst hrest2
    show (hubComplete (hubRun events)).inFlight = [r] ∧
      (hubComplete (hubRun events)).retained = [] ∧
      (hubComplete (hubRun events)).dispatched
        = (hubRun events).dispatched ++ [r]
    unfold hubComplete
    rw [hif, hret]
    exact ⟨rfl, rfl, rfl⟩

/-- Witness for C1: dispatch `width := 70`, then capture `height := 9` while
in flight; completing the cycle dispatches exactly the retained snapshot. -/
theorem C1_gate_single_flight_witness :
    (hubStep (hubRun [HubEvent.clientDelta [("width", 70)],
        HubEvent.debounceExpiry, HubEvent.clientDelta [("height", 9)],
        HubEvent.debounceExpiry]) HubEvent.cycleComplete).inFlight
      = [[("height", (9 : ℚ))]] ∧
    (hubStep (hubRun [HubEvent.clientDelta [("width", 70)],
        HubEvent.debounceExpiry, HubEvent.clientDelta [("height", 9)],
        HubEvent.debounceExpiry]) HubEvent.cycleComplete).retained = [] := by
  obtain ⟨h1, h2, h3⟩ := C1_gate_single_flight
    [HubEvent.clientDelta [("width", 70)], HubEvent.debounceExpiry,
     HubEvent.clientDelta [("height", 9)], HubEvent.debounceExpiry]
  obtain ⟨ha, hb, hc⟩ := h3 [("height", 9)] [] (by decide)
  exact ⟨ha, hb⟩

end GrasshopperChat
